import Mathlib

/-! # Verification of the home-energy rules engine

Shallow embedding of `src/rules-engine/src/rules_engine/engine.py`.

Modelling conventions:
* Python floats are modelled as exact rationals (`ℚ`).
* Python exceptions (`ZeroDivisionError` from `/`, `StatisticsError` from
  `statistics.mean`/`pstdev` on empty data, `IndexError`/`ValueError` from
  list indexing and `np.argmax([])`) are modelled by `Option`: `none` means
  the call raised and never returned.
* `statistics.pstdev` is the square root of the population variance.  The
  square root of a rational is irrational in general, so every definition
  that consumes it is parametrised by the square-root function `sqrt`
  employed; the concrete runs below use the rational floor approximation
  `ratSqrt` (exact on perfect squares, within `10 ^ (-6)` otherwise).
* Both `while` loops of the source (the direction loop of
  `refine_balance_point` and the outlier loop of
  `calculate_balance_point_and_ua`) have no a-priori termination bound, so
  they are embedded with an explicit fuel parameter; running out of fuel
  yields `none`, and every theorem about a completed call has the shape
  "if the call returned `some`, then ...".
-/

set_option maxRecDepth 2000

attribute [local semireducible] Rat.add Rat.sub Rat.mul Rat.inv

/-- `hdd(avg_temp, balance_point)` (engine.py lines 8-21): heating degree
days on one day, `balance_point - avg_temp` floored at `0`. -/
def hdd (avg_temp balance_point : ℚ) : ℚ :=
  let diff := balance_point - avg_temp
  if diff < 0 then 0 else diff

/-- `period_hdd(avg_temps, balance_point)` (lines 24-32): total heating
degree days over a period. -/
def period_hdd (avg_temps : List ℚ) (balance_point : ℚ) : ℚ :=
  (avg_temps.map fun temp => hdd temp balance_point).sum

/-- `average_indoor_temp` (lines 35-49). -/
def average_indoor_temp (tstat_set tstat_setback setback_daily_hrs : ℚ) : ℚ :=
  ((24 - setback_daily_hrs) * tstat_set + setback_daily_hrs * tstat_setback) / 24

/-- `average_heat_load` (lines 52-66). -/
def average_heat_load (design_set_point avg_indoor_temp balance_point design_temp ua : ℚ) : ℚ :=
  (design_set_point - (avg_indoor_temp - balance_point) - design_temp) * ua

/-- `max_heat_load` (lines 69-81). -/
def max_heat_load (design_set_point design_temp ua : ℚ) : ℚ :=
  (design_set_point - design_temp) * ua

/-- `FuelType` (lines 84-89). -/
inductive FuelType
  | GAS
  | OIL
  | PROPANE
deriving DecidableEq

/-- The BTU-per-usage value attached to each `FuelType` member. -/
def FuelType.value : FuelType → ℚ
  | .GAS => 100000
  | .OIL => 139600
  | .PROPANE => 91333

/-- Python division `a / b`: raises `ZeroDivisionError` when `b = 0`. -/
def safe_div (a b : ℚ) : Option ℚ :=
  if b = 0 then none else some (a / b)

/-- `statistics.mean`: arithmetic mean; raises `StatisticsError` on `[]`. -/
def mean (xs : List ℚ) : Option ℚ :=
  if xs = [] then none else some (xs.sum / xs.length)

/-- `statistics.pvariance`: population variance, the mean of the squared
deviations from the mean; raises on `[]`. -/
def pvariance (xs : List ℚ) : Option ℚ :=
  match mean xs with
  | none => none
  | some m => mean (xs.map fun x => (x - m) ^ 2)

/-- `statistics.pstdev`: the square root of the population variance, with
the square-root function passed in explicitly (see the module comment). -/
def pstdev (sqrt : ℚ → ℚ) (xs : List ℚ) : Option ℚ :=
  (pvariance xs).map sqrt

/-- Newton (Heron) iteration for the integer square root, with structural
fuel so that it evaluates by plain iota reduction.  Starting from a guess
at least `⌊√n⌋`, the iteration decreases strictly until it stabilises at
`⌊√n⌋`; `128` rounds suffice for every `n < 2 ^ 128`. -/
def heron_iter (n : ℕ) : ℕ → ℕ → ℕ
  | 0, guess => guess
  | fuel + 1, guess =>
    let next := (guess + n / guess) / 2
    if next < guess then heron_iter n fuel next else guess

/-- Integer square root (floor), by Newton iteration. -/
def nat_sqrt (n : ℕ) : ℕ :=
  if n ≤ 1 then n else heron_iter n 128 (n / 2)

/-- Rational stand-in for the real square root used in the concrete runs:
`√(n/d)` is approximated from below by `⌊√(n·d·10^12)⌋ / (d·10^6)`, which is
exact whenever `n/d` is the square of a rational whose denominator divides
`d·10^6` (in particular on `0` and on squares such as `4/25`), and within
`10^(-6)·(1/d)` of the real value otherwise. -/
def ratSqrt (q : ℚ) : ℚ :=
  mkRat (Int.ofNat (nat_sqrt (q.num.toNat * q.den * 10 ^ 12))) (q.den * 10 ^ 6)

/-- One `BillingPeriod` (lines 224-250).  The Python object keeps a
back-reference `self.home`; the four home fields it reads
(`balance_point`, `avg_non_heating_usage`, `fuel_type.value`,
`heat_sys_efficiency`) are supplied at construction instead, so the record
holds only the period's own data. -/
structure Bill where
  avg_temps : List ℚ
  usage : ℚ
  days : ℕ
  avg_heating_usage : ℚ
  total_hdd : ℚ
  partial_ua : ℚ
  ua : ℚ
deriving DecidableEq

/-- The `Home` object (lines 92-105 and the attributes assigned later by
`initialize_billing_periods` / `calculate_balance_point_and_ua`).  The
fields `bills`, `uas`, `avg_ua`, `stdev_pct`, `avg_non_heating_usage` are
unset in Python until those methods run; here they carry placeholder
values until then. -/
structure Home where
  fuel_type : FuelType
  heat_sys_efficiency : ℚ
  balance_point : ℚ
  thermostat_set_point : ℚ
  avg_non_heating_usage : ℚ
  bills : List Bill
  uas : List ℚ
  avg_ua : ℚ
  stdev_pct : ℚ
deriving DecidableEq

/-- `Home.__init__` (lines 95-105). -/
def mk_home (fuel_type : FuelType) (heat_sys_efficiency initial_balance_point thermostat_set_point : ℚ) : Home :=
  { fuel_type := fuel_type
    heat_sys_efficiency := heat_sys_efficiency
    balance_point := initial_balance_point
    thermostat_set_point := thermostat_set_point
    avg_non_heating_usage := 0
    bills := []
    uas := []
    avg_ua := 0
    stdev_pct := 0 }

/-- `BillingPeriod.__init__` (lines 225-240) with `calculate_partial_ua`
(lines 242-250) inlined at its single call site.  `none` models the
`ZeroDivisionError` raised either by `usage / days` when the period is
empty or by `partial_ua / total_hdd` when the period has zero heating
degree days at the home's current balance point. -/
def mk_billing_period (home : Home) (avg_temps : List ℚ) (usage : ℚ) : Option Bill :=
  let days := avg_temps.length
  match safe_div usage days with
  | none => none
  | some usage_per_day =>
    let avg_heating_usage := usage_per_day - home.avg_non_heating_usage
    let total_hdd := period_hdd avg_temps home.balance_point
    let partial_ua := days * avg_heating_usage * home.fuel_type.value * home.heat_sys_efficiency / 24
    match safe_div partial_ua total_hdd with
    | none => none
    | some ua =>
      some { avg_temps := avg_temps
             usage := usage
             days := days
             avg_heating_usage := avg_heating_usage
             total_hdd := total_hdd
             partial_ua := partial_ua
             ua := ua }

/-- The loop body of `initialize_billing_periods`
(`for i in range(len(usages)): bills.append(BillingPeriod(temps[i], usages[i], self))`):
`temps[i]` raises `IndexError` when `temps` is shorter than `usages`. -/
def build_bills (home : Home) (temps : List (List ℚ)) (usages : List ℚ) : List ℕ → Option (List Bill)
  | [] => some []
  | i :: rest =>
    match temps.get? i, usages.get? i with
    | some t, some u =>
      match mk_billing_period home t u, build_bills home temps usages rest with
      | some b, some bs => some (b :: bs)
      | _, _ => none
    | _, _ => none

/-- `Home.initialize_billing_periods` (lines 107-122). -/
def initialize_billing_periods (home : Home) (temps : List (List ℚ)) (usages : List ℚ)
    (avg_non_heating_usage : ℚ) : Option Home :=
  let h := { home with bills := [], avg_non_heating_usage := avg_non_heating_usage }
  match build_bills h temps usages (List.range usages.length) with
  | none => none
  | some bs => some { h with bills := bs }

/-- `np.argmax`: the index of the first occurrence of the maximum of the
list (`0` on `[]`, where NumPy raises `ValueError` instead; the caller in
`calc_loop` turns that case into `none` through the failing list lookup). -/
def idxmax : List ℚ → ℕ
  | [] => 0
  | [_] => 0
  | x :: y :: t =>
    if x < (y :: t).getD (idxmax (y :: t)) 0 then idxmax (y :: t) + 1 else 0

/-- The index popped by the outlier loop (lines 140-142):
`np.argmax([abs(bill.ua - self.avg_ua) for bill in self.bills])`. -/
def outlier_idx (h : Home) : ℕ :=
  idxmax (h.bills.map fun bill => |bill.ua - h.avg_ua|)

/-- Line 200: `period_hdds_i = [period_hdd(bill.avg_temps, bp_i) for bill in self.bills]`. -/
def trial_hdds (bills : List Bill) (bp_i : ℚ) : List ℚ :=
  bills.map fun bill => period_hdd bill.avg_temps bp_i

/-- Lines 201-203:
`uas_i = [bill.partial_ua / period_hdds_i[n] for n, bill in enumerate(self.bills)]`
(`period_hdds_i[n]` is `period_hdd bill.avg_temps bp_i` for the `n`-th
bill); `none` when some period has zero degree days at `bp_i`
(`ZeroDivisionError`). -/
def trial_uas : List Bill → ℚ → Option (List ℚ)
  | [], _ => some []
  | bill :: bills, bp_i =>
    match safe_div bill.partial_ua (period_hdd bill.avg_temps bp_i), trial_uas bills bp_i with
    | some u, some us => some (u :: us)
    | _, _ => none

/-- The quantities a trial balance point produces (lines 200-205). -/
structure TrialStats where
  hdds : List ℚ
  uas : List ℚ
  avg_ua : ℚ
  stdev_pct : ℚ
deriving DecidableEq

/-- Lines 200-205 of `refine_balance_point`: evaluate the candidate
balance point `bp_i` on every retained bill. -/
def refine_trial (sqrt : ℚ → ℚ) (h : Home) (bp_i : ℚ) : Option TrialStats :=
  match trial_uas h.bills bp_i with
  | none => none
  | some uas_i =>
    match mean uas_i with
    | none => none
    | some avg_ua_i =>
      match pstdev sqrt uas_i with
      | none => none
      | some psd =>
        match safe_div psd avg_ua_i with
        | none => none
        | some stdev_pct_i =>
          some { hdds := trial_hdds h.bills bp_i
                 uas := uas_i
                 avg_ua := avg_ua_i
                 stdev_pct := stdev_pct_i }

/-- Lines 214-216:
`for n, bill in enumerate(self.bills): bill.total_hdd = period_hdds_i[n]; bill.ua = uas_i[n]`.
The three lists always have equal length at the call site. -/
def set_hdd_ua : List Bill → List ℚ → List ℚ → List Bill
  | bill :: bills, hd :: hds, u :: us =>
    { bill with total_hdd := hd, ua := u } :: set_hdd_ua bills hds us
  | bills, _, _ => bills

/-- Lines 207-216: commit an improving trial: adopt the trial balance
point and statistics and write the recomputed `total_hdd`/`ua` into every
retained bill.  (`self.uas` is *not* reassigned here, faithfully to the
source.) -/
def refine_commit (h : Home) (bp_i : ℚ) (t : TrialStats) : Home :=
  { h with balance_point := bp_i
           avg_ua := t.avg_ua
           stdev_pct := t.stdev_pct
           bills := set_hdd_ua h.bills t.hdds t.uas }

/-- The `while directions_to_check:` loop of `refine_balance_point`
(lines 190-221), with explicit fuel.  On an improving trial, if both
directions were still active (`len == 2`) the last (untried, opposite)
direction is popped; on a non-improving trial the current direction is
popped; a trial above the thermostat set point ends the whole loop. -/
def refine_loop (sqrt : ℚ → ℚ) (balance_point_sensitivity : ℚ) : ℕ → List ℚ → Home → Option Home
  | 0, _, _ => none
  | _ + 1, [], h => some h
  | fuel + 1, d :: ds, h =>
    let bp_i := h.balance_point + d * balance_point_sensitivity
    if h.thermostat_set_point < bp_i then some h
    else
      match refine_trial sqrt h bp_i with
      | none => none
      | some t =>
        if t.stdev_pct < h.stdev_pct then
          refine_loop sqrt balance_point_sensitivity fuel
            (if (d :: ds).length = 2 then [d] else d :: ds)
            (refine_commit h bp_i t)
        else
          refine_loop sqrt balance_point_sensitivity fuel ds h

/-- `Home.refine_balance_point` (lines 186-221): run the direction loop
from the initial direction set `[1, -1]`. -/
def refine_balance_point (sqrt : ℚ → ℚ) (balance_point_sensitivity : ℚ) (fuel : ℕ) (h : Home) : Option Home :=
  refine_loop sqrt balance_point_sensitivity fuel [1, -1] h

/-- The `while self.stdev_pct > stdev_pct_max:` outlier loop of
`calculate_balance_point_and_ua` (lines 139-157), with explicit fuel:
pop the first-occurrence argmax of `|ua - avg_ua|`; if excluding it
improves `stdev_pct` by less than `max_stdev_pct_diff`, re-append it and
stop; otherwise adopt the recomputed statistics and refine again. -/
def calc_loop (sqrt : ℚ → ℚ) (stdev_pct_max max_stdev_pct_diff next_balance_point_sensitivity : ℚ)
    (refine_fuel : ℕ) : ℕ → Home → Option Home
  | 0, _ => none
  | fuel + 1, h =>
    if stdev_pct_max < h.stdev_pct then
      match h.bills.get? (outlier_idx h) with
      | none => none
      | some outlier =>
        let bills' := h.bills.eraseIdx (outlier_idx h)
        let uas_i := bills'.map Bill.ua
        match mean uas_i with
        | none => none
        | some avg_ua_i =>
          match pstdev sqrt uas_i with
          | none => none
          | some psd =>
            match safe_div psd avg_ua_i with
            | none => none
            | some stdev_pct_i =>
              if h.stdev_pct - stdev_pct_i < max_stdev_pct_diff then
                some { h with bills := bills' ++ [outlier] }
              else
                match refine_loop sqrt next_balance_point_sensitivity refine_fuel [1, -1]
                    { h with uas := uas_i, avg_ua := avg_ua_i, stdev_pct := stdev_pct_i,
                             bills := bills' } with
                | none => none
                | some h' =>
                  calc_loop sqrt stdev_pct_max max_stdev_pct_diff
                    next_balance_point_sensitivity refine_fuel fuel h'
    else some h

/-- `Home.calculate_balance_point_and_ua` (lines 124-157): initial
statistics, one refine pass at the initial sensitivity, then the outlier
loop. -/
def calculate_balance_point_and_ua (sqrt : ℚ → ℚ)
    (initial_balance_point_sensitivity stdev_pct_max max_stdev_pct_diff
      next_balance_point_sensitivity : ℚ)
    (refine_fuel loop_fuel : ℕ) (h : Home) : Option Home :=
  let uas := h.bills.map Bill.ua
  match mean uas with
  | none => none
  | some avg_ua =>
    match pstdev sqrt uas with
    | none => none
    | some psd =>
      match safe_div psd avg_ua with
      | none => none
      | some stdev_pct =>
        match refine_loop sqrt initial_balance_point_sensitivity refine_fuel [1, -1]
            { h with uas := uas, avg_ua := avg_ua, stdev_pct := stdev_pct } with
        | none => none
        | some h' =>
          calc_loop sqrt stdev_pct_max max_stdev_pct_diff
            next_balance_point_sensitivity refine_fuel loop_fuel h'

/-- `Home.calculate_balance_point_and_ua_customizable` (lines 160-183):
drop the caller-selected bills, recompute the statistics once, refine
once.  (Python membership `bp not in bps_to_remove` uses object identity
for `BillingPeriod`; the embedding uses structural equality, which agrees
whenever the retained list has no duplicate equal records.) -/
def calculate_balance_point_and_ua_customizable (sqrt : ℚ → ℚ) (bps_to_remove : List Bill)
    (balance_point_sensitivity : ℚ) (refine_fuel : ℕ) (h : Home) : Option Home :=
  let customized_bills := h.bills.filter fun bp => !(bps_to_remove.contains bp)
  let uas := customized_bills.map Bill.ua
  match mean uas with
  | none => none
  | some avg_ua =>
    match pstdev sqrt uas with
    | none => none
    | some psd =>
      match safe_div psd avg_ua with
      | none => none
      | some stdev_pct =>
        refine_loop sqrt balance_point_sensitivity refine_fuel [1, -1]
          { h with uas := uas, avg_ua := avg_ua, stdev_pct := stdev_pct,
                   bills := customized_bills }

/-- A bill is in sync with a balance point when its stored `total_hdd` is
the period's heating degree days at that balance point and its stored
`ua` is `partial_ua / total_hdd` (the spec's central invariant). -/
def bill_synced (bp : ℚ) (b : Bill) : Prop :=
  b.total_hdd = period_hdd b.avg_temps bp ∧ b.ua = b.partial_ua / b.total_hdd

/-- Every retained bill of the home is in sync with the home's current
balance point. -/
def bills_synced (h : Home) : Prop :=
  ∀ b ∈ h.bills, bill_synced h.balance_point b



/-! ## Concrete inputs used by the witnesses and counterexamples

All of these are small homes whose statistics stay inside the exact range
of `ratSqrt` (two-element populations have a rational `pstdev`, namely
half the absolute difference), so every branch decision in the concrete
runs below agrees with the real-square-root semantics of the source. -/

/-- A one-day billing period at 20 °F with `partial_ua = 40`, in sync with
balance point 60 (`total_hdd = 40`, `ua = 1`). -/
def bill_t20 : Bill :=
  { avg_temps := [20], usage := 40, days := 1, avg_heating_usage := 40,
    total_hdd := 40, partial_ua := 40, ua := 1 }

/-- A one-day billing period at 30 °F with `partial_ua = 40`, in sync with
balance point 60 (`total_hdd = 30`, `ua = 4/3`). -/
def bill_t30 : Bill :=
  { avg_temps := [30], usage := 40, days := 1, avg_heating_usage := 40,
    total_hdd := 30, partial_ua := 40, ua := 4 / 3 }

/-- A one-day billing period at 20 °F with `partial_ua = 80`, in sync with
balance point 60 (`ua = 2`). -/
def bill_u2 : Bill :=
  { avg_temps := [20], usage := 80, days := 1, avg_heating_usage := 80,
    total_hdd := 40, partial_ua := 80, ua := 2 }

/-- A home on which every trial of `refine_balance_point` in the `+1`
direction improves `stdev_pct` (the two periods' UA values approach each
other as the balance point rises), with consistent stored statistics. -/
def home_improving : Home :=
  { fuel_type := .GAS, heat_sys_efficiency := 3 / 12500, balance_point := 60,
    thermostat_set_point := 70, avg_non_heating_usage := 0,
    bills := [bill_t20, bill_t30], uas := [1, 4 / 3], avg_ua := 7 / 6,
    stdev_pct := 1 / 7 }

/-- The state `refine_balance_point ratSqrt 1` drives `home_improving`
to: ten `+1` commits up to the thermostat set point 70.  (`uas` is not
refreshed by refine, faithfully to the source.) -/
def home_improving_result : Home :=
  { home_improving with
    balance_point := 70
    avg_ua := 9 / 10
    stdev_pct := 1 / 9
    bills := [{ bill_t20 with total_hdd := 50, ua := 4 / 5 },
              { bill_t30 with total_hdd := 40, ua := 1 }] }

/-- The trial statistics of `home_improving` at balance point 61. -/
def trial_61 : TrialStats :=
  { hdds := [41, 31], uas := [40 / 41, 40 / 31], avg_ua := 1440 / 1271,
    stdev_pct := 5 / 36 }

/-- A stable home: two identical periods, `stdev_pct = 0`, balance point
at the thermostat set point (so every refine trial is infeasible), and
stored statistics equal to the recomputed ones. -/
def home_stable : Home :=
  { fuel_type := .GAS, heat_sys_efficiency := 3 / 12500, balance_point := 60,
    thermostat_set_point := 60, avg_non_heating_usage := 0,
    bills := [bill_t20, bill_t20], uas := [1, 1], avg_ua := 1, stdev_pct := 0 }

/-- A home mid-way through the outlier loop whose next tentative
exclusion is rejected: `stdev_pct = 1/3` (consistent with `uas = [1, 2]`),
and excluding either tied outlier leaves a singleton with `stdev_pct = 0`. -/
def home_reject : Home :=
  { fuel_type := .GAS, heat_sys_efficiency := 3 / 12500, balance_point := 60,
    thermostat_set_point := 60, avg_non_heating_usage := 0,
    bills := [bill_t20, bill_u2], uas := [1, 2], avg_ua := 3 / 2,
    stdev_pct := 1 / 3 }

/-- A home constructed with `initial_balance_point = 70` above its
`thermostat_set_point = 68`, which `Home.__init__` permits. -/
def home_above : Home := mk_home .GAS 1 70 68

/-- One full `calculate_balance_point_and_ua` run (default parameters:
sensitivities 2 and 0.5, `stdev_pct_max = 0.10`, `max_stdev_pct_diff =
0.01`) on a three-period home whose first tentative exclusion is rejected:
the run completes with all three periods retained. -/
def run_once : Option Home :=
  (initialize_billing_periods (mk_home .GAS (3 / 12500) 60 60)
      [[20], [20], [20]] [72, 8, 40] 0).bind
    (calculate_balance_point_and_ua ratSqrt 2 (1 / 10) (1 / 100) (1 / 2) 3 4)

/-- Re-invoking `calculate_balance_point_and_ua` on the completed state of
`run_once` with the same parameters. -/
def run_twice : Option Home :=
  run_once.bind (calculate_balance_point_and_ua ratSqrt 2 (1 / 10) (1 / 100) (1 / 2) 3 4)

/-! ## Basic equations and helper lemmas -/

lemma set_hdd_ua_nil (hds us : List ℚ) : set_hdd_ua [] hds us = [] := rfl

lemma set_hdd_ua_cons (bill : Bill) (bills : List Bill) (hd : ℚ) (hds : List ℚ)
    (u : ℚ) (us : List ℚ) :
    set_hdd_ua (bill :: bills) (hd :: hds) (u :: us) =
      { bill with total_hdd := hd, ua := u } :: set_hdd_ua bills hds us := rfl

lemma refine_loop_zero (sqrt : ℚ → ℚ) (s : ℚ) (dirs : List ℚ) (h : Home) :
    refine_loop sqrt s 0 dirs h = none := rfl

lemma refine_loop_nil (sqrt : ℚ → ℚ) (s : ℚ) (fuel : ℕ) (h : Home) :
    refine_loop sqrt s (fuel + 1) [] h = some h := rfl

lemma refine_loop_cons (sqrt : ℚ → ℚ) (s : ℚ) (fuel : ℕ) (d : ℚ) (ds : List ℚ) (h : Home) :
    refine_loop sqrt s (fuel + 1) (d :: ds) h =
      (if h.thermostat_set_point < h.balance_point + d * s then some h
       else
        match refine_trial sqrt h (h.balance_point + d * s) with
        | none => none
        | some t =>
          if t.stdev_pct < h.stdev_pct then
            refine_loop sqrt s fuel (if (d :: ds).length = 2 then [d] else d :: ds)
              (refine_commit h (h.balance_point + d * s) t)
          else refine_loop sqrt s fuel ds h) := rfl

/-- All accepted steps of the direction loop strictly decrease
`stdev_pct`, so a completed loop never increases it. -/
lemma refine_loop_stdev_le (sqrt : ℚ → ℚ) (s : ℚ) :
    ∀ (fuel : ℕ) (dirs : List ℚ) (h h' : Home),
      refine_loop sqrt s fuel dirs h = some h' → h'.stdev_pct ≤ h.stdev_pct := by
  intro fuel
  induction fuel with
  | zero => intro dirs h h' hr; simp [refine_loop_zero] at hr
  | succ n ih =>
    intro dirs h h' hr
    match dirs with
    | [] =>
      rw [refine_loop_nil] at hr
      cases hr
      exact le_refl _
    | d :: ds =>
      rw [refine_loop_cons] at hr
      by_cases hbp : h.thermostat_set_point < h.balance_point + d * s
      · rw [if_pos hbp] at hr
        cases hr
        exact le_refl _
      · rw [if_neg hbp] at hr
        cases ht : refine_trial sqrt h (h.balance_point + d * s) with
        | none => rw [ht] at hr; cases hr
        | some t =>
          rw [ht] at hr
          simp only [] at hr
          by_cases himp : t.stdev_pct < h.stdev_pct
          · rw [if_pos himp] at hr
            have h1 := ih _ _ _ hr
            have h2 : (refine_commit h (h.balance_point + d * s) t).stdev_pct = t.stdev_pct := rfl
            rw [h2] at h1
            exact le_trans h1 (le_of_lt himp)
          · rw [if_neg himp] at hr
            exact ih _ _ _ hr

/-- The direction loop never changes the thermostat set point, and it
keeps the balance point at or below the set point whenever it started
there (every committed trial was checked against the set point first). -/
lemma refine_loop_bp_le (sqrt : ℚ → ℚ) (s : ℚ) :
    ∀ (fuel : ℕ) (dirs : List ℚ) (h h' : Home),
      refine_loop sqrt s fuel dirs h = some h' →
      h'.thermostat_set_point = h.thermostat_set_point ∧
        (h.balance_point ≤ h.thermostat_set_point →
          h'.balance_point ≤ h'.thermostat_set_point) := by
  intro fuel
  induction fuel with
  | zero => intro dirs h h' hr; simp [refine_loop_zero] at hr
  | succ n ih =>
    intro dirs h h' hr
    match dirs with
    | [] =>
      rw [refine_loop_nil] at hr
      cases hr
      exact ⟨rfl, fun hb => hb⟩
    | d :: ds =>
      rw [refine_loop_cons] at hr
      by_cases hbp : h.thermostat_set_point < h.balance_point + d * s
      · rw [if_pos hbp] at hr
        cases hr
        exact ⟨rfl, fun hb => hb⟩
      · rw [if_neg hbp] at hr
        cases ht : refine_trial sqrt h (h.balance_point + d * s) with
        | none => rw [ht] at hr; cases hr
        | some t =>
          rw [ht] at hr
          simp only [] at hr
          by_cases himp : t.stdev_pct < h.stdev_pct
          · rw [if_pos himp] at hr
            have h1 := ih _ _ _ hr
            have h2 : (refine_commit h (h.balance_point + d * s) t).thermostat_set_point =
                h.thermostat_set_point := rfl
            have h3 : (refine_commit h (h.balance_point + d * s) t).balance_point =
                h.balance_point + d * s := rfl
            refine ⟨by rw [h1.1, h2], fun _ => ?_⟩
            have := h1.2 (by rw [h2, h3]; exact le_of_not_lt hbp)
            exact this
          · rw [if_neg himp] at hr
            exact ih _ _ _ hr

lemma safe_div_some {a b q : ℚ} (h : safe_div a b = some q) : b ≠ 0 ∧ q = a / b := by
  unfold safe_div at h
  by_cases hb : b = 0
  · rw [if_pos hb] at h; cases h
  · rw [if_neg hb] at h; cases h; exact ⟨hb, rfl⟩

/-- Writing back the recomputed `total_hdd`/`ua` trial lists leaves every
bill in sync with the trial balance point. -/
lemma set_hdd_ua_synced :
    ∀ (bills : List Bill) (bp : ℚ) (uas : List ℚ),
      trial_uas bills bp = some uas →
      ∀ b' ∈ set_hdd_ua bills (trial_hdds bills bp) uas, bill_synced bp b' := by
  intro bills
  induction bills with
  | nil =>
    intro bp uas h b' hb'
    rw [set_hdd_ua_nil] at hb'
    simp at hb'
  | cons bill bills ih =>
    intro bp uas h b' hb'
    unfold trial_uas at h
    cases hu : safe_div bill.partial_ua (period_hdd bill.avg_temps bp) with
    | none => rw [hu] at h; simp at h
    | some u =>
      cases hus : trial_uas bills bp with
      | none => rw [hu, hus] at h; simp at h
      | some us =>
        rw [hu, hus] at h
        simp only [] at h
        cases h
        have hhd : trial_hdds (bill :: bills) bp =
            period_hdd bill.avg_temps bp :: trial_hdds bills bp := rfl
        rw [hhd, set_hdd_ua_cons] at hb'
        rcases List.mem_cons.mp hb' with hhead | htail
        · subst hhead
          obtain ⟨hdnz, hq⟩ := safe_div_some hu
          exact ⟨rfl, by simpa using hq⟩
        · exact ih bp us hus b' htail

/-- What a successful trial returns: the stored `hdds` are the recomputed
period HDDs at the trial point, and the stored `uas` are the checked
per-bill divisions. -/
lemma refine_trial_spec {sqrt : ℚ → ℚ} {h : Home} {bp : ℚ} {t : TrialStats}
    (ht : refine_trial sqrt h bp = some t) :
    t.hdds = trial_hdds h.bills bp ∧ trial_uas h.bills bp = some t.uas := by
  unfold refine_trial at ht
  cases h1 : trial_uas h.bills bp with
  | none => rw [h1] at ht; simp at ht
  | some uas_i =>
    rw [h1] at ht
    simp only [] at ht
    cases h2 : mean uas_i with
    | none => rw [h2] at ht; simp at ht
    | some avg_i =>
      rw [h2] at ht
      simp only [] at ht
      cases h3 : pstdev sqrt uas_i with
      | none => rw [h3] at ht; simp at ht
      | some psd =>
        rw [h3] at ht
        simp only [] at ht
        cases h4 : safe_div psd avg_i with
        | none => rw [h4] at ht; simp at ht
        | some sp =>
          rw [h4] at ht
          simp only [] at ht
          cases ht
          exact ⟨rfl, by simp [h1]⟩

/-- The direction loop preserves the synchronization invariant: whenever
it commits a new balance point it immediately rewrites every retained
bill's `total_hdd`/`ua` at that point. -/
lemma refine_loop_synced (sqrt : ℚ → ℚ) (s : ℚ) :
    ∀ (fuel : ℕ) (dirs : List ℚ) (h h' : Home),
      bills_synced h → refine_loop sqrt s fuel dirs h = some h' → bills_synced h' := by
  intro fuel
  induction fuel with
  | zero => intro dirs h h' _ hr; simp [refine_loop_zero] at hr
  | succ n ih =>
    intro dirs h h' hs hr
    match dirs with
    | [] =>
      rw [refine_loop_nil] at hr
      cases hr
      exact hs
    | d :: ds =>
      rw [refine_loop_cons] at hr
      by_cases hbp : h.thermostat_set_point < h.balance_point + d * s
      · rw [if_pos hbp] at hr
        cases hr
        exact hs
      · rw [if_neg hbp] at hr
        cases ht : refine_trial sqrt h (h.balance_point + d * s) with
        | none => rw [ht] at hr; cases hr
        | some t =>
          rw [ht] at hr
          simp only [] at hr
          by_cases himp : t.stdev_pct < h.stdev_pct
          · rw [if_pos himp] at hr
            refine ih _ _ _ ?_ hr
            obtain ⟨hhd, hua⟩ := refine_trial_spec ht
            intro b hb
            have hb' : b ∈ set_hdd_ua h.bills (trial_hdds h.bills (h.balance_point + d * s)) t.uas := by
              simpa [refine_commit, hhd] using hb
            exact set_hdd_ua_synced h.bills _ t.uas hua b hb'
          · rw [if_neg himp] at hr
            exact ih _ _ _ hs hr

lemma calc_loop_zero (sqrt : ℚ → ℚ) (mx df nx : ℚ) (rf : ℕ) (h : Home) :
    calc_loop sqrt mx df nx rf 0 h = none := rfl

lemma calc_loop_succ (sqrt : ℚ → ℚ) (mx df nx : ℚ) (rf fuel : ℕ) (h : Home) :
    calc_loop sqrt mx df nx rf (fuel + 1) h =
      (if mx < h.stdev_pct then
        match h.bills.get? (outlier_idx h) with
        | none => none
        | some outlier =>
          match mean ((h.bills.eraseIdx (outlier_idx h)).map Bill.ua) with
          | none => none
          | some avg_ua_i =>
            match pstdev sqrt ((h.bills.eraseIdx (outlier_idx h)).map Bill.ua) with
            | none => none
            | some psd =>
              match safe_div psd avg_ua_i with
              | none => none
              | some stdev_pct_i =>
                if h.stdev_pct - stdev_pct_i < df then
                  some { h with bills := h.bills.eraseIdx (outlier_idx h) ++ [outlier] }
                else
                  match refine_loop sqrt nx rf [1, -1]
                      { h with uas := (h.bills.eraseIdx (outlier_idx h)).map Bill.ua,
                               avg_ua := avg_ua_i, stdev_pct := stdev_pct_i,
                               bills := h.bills.eraseIdx (outlier_idx h) } with
                  | none => none
                  | some h' => calc_loop sqrt mx df nx rf fuel h'
      else some h) := rfl

/-- The outlier loop preserves the synchronization invariant: it only
ever drops bills, re-appends a just-dropped bill, or calls the direction
loop, and it never touches the balance point itself. -/
lemma calc_loop_synced (sqrt : ℚ → ℚ) (mx df nx : ℚ) (rf : ℕ) :
    ∀ (fuel : ℕ) (h h' : Home),
      bills_synced h → calc_loop sqrt mx df nx rf fuel h = some h' → bills_synced h' := by
  intro fuel
  induction fuel with
  | zero => intro h h' _ hr; simp [calc_loop_zero] at hr
  | succ n ih =>
    intro h h' hs hr
    rw [calc_loop_succ] at hr
    by_cases hgt : mx < h.stdev_pct
    · rw [if_pos hgt] at hr
      cases hget : h.bills.get? (outlier_idx h) with
      | none => rw [hget] at hr; cases hr
      | some outlier =>
        rw [hget] at hr
        simp only [] at hr
        cases hmean : mean ((h.bills.eraseIdx (outlier_idx h)).map Bill.ua) with
        | none => rw [hmean] at hr; cases hr
        | some avg_ua_i =>
          rw [hmean] at hr
          simp only [] at hr
          cases hpsd : pstdev sqrt ((h.bills.eraseIdx (outlier_idx h)).map Bill.ua) with
          | none => rw [hpsd] at hr; cases hr
          | some psd =>
            rw [hpsd] at hr
            simp only [] at hr
            cases hdiv : safe_div psd avg_ua_i with
            | none => rw [hdiv] at hr; cases hr
            | some stdev_pct_i =>
              rw [hdiv] at hr
              simp only [] at hr
              by_cases hrej : h.stdev_pct - stdev_pct_i < df
              · rw [if_pos hrej] at hr
                cases hr
                intro b hb
                simp only [] at hb
                rcases List.mem_append.mp hb with hb1 | hb2
                · exact hs b ((h.bills.eraseIdx_sublist (outlier_idx h)).subset hb1)
                · rw [List.mem_singleton.mp hb2]
                  exact hs outlier (List.get?_mem hget)
              · rw [if_neg hrej] at hr
                cases href : refine_loop sqrt nx rf [1, -1]
                    { h with uas := (h.bills.eraseIdx (outlier_idx h)).map Bill.ua,
                             avg_ua := avg_ua_i, stdev_pct := stdev_pct_i,
                             bills := h.bills.eraseIdx (outlier_idx h) } with
                | none => rw [href] at hr; cases hr
                | some h'' =>
                  rw [href] at hr
                  simp only [] at hr
                  refine ih _ _ ?_ hr
                  refine refine_loop_synced sqrt nx rf [1, -1] _ h'' ?_ href
                  intro b hb
                  exact hs b ((h.bills.eraseIdx_sublist (outlier_idx h)).subset hb)
    · rw [if_neg hgt] at hr
      cases hr
      exact hs

/-- The outlier loop preserves the thermostat set point and the
balance-point bound. -/
lemma calc_loop_bp_le (sqrt : ℚ → ℚ) (mx df nx : ℚ) (rf : ℕ) :
    ∀ (fuel : ℕ) (h h' : Home),
      calc_loop sqrt mx df nx rf fuel h = some h' →
      h'.thermostat_set_point = h.thermostat_set_point ∧
        (h.balance_point ≤ h.thermostat_set_point →
          h'.balance_point ≤ h'.thermostat_set_point) := by
  intro fuel
  induction fuel with
  | zero => intro h h' hr; simp [calc_loop_zero] at hr
  | succ n ih =>
    intro h h' hr
    rw [calc_loop_succ] at hr
    by_cases hgt : mx < h.stdev_pct
    · rw [if_pos hgt] at hr
      cases hget : h.bills.get? (outlier_idx h) with
      | none => rw [hget] at hr; cases hr
      | some outlier =>
        rw [hget] at hr
        simp only [] at hr
        cases hmean : mean ((h.bills.eraseIdx (outlier_idx h)).map Bill.ua) with
        | none => rw [hmean] at hr; cases hr
        | some avg_ua_i =>
          rw [hmean] at hr
          simp only [] at hr
          cases hpsd : pstdev sqrt ((h.bills.eraseIdx (outlier_idx h)).map Bill.ua) with
          | none => rw [hpsd] at hr; cases hr
          | some psd =>
            rw [hpsd] at hr
            simp only [] at hr
            cases hdiv : safe_div psd avg_ua_i with
            | none => rw [hdiv] at hr; cases hr
            | some stdev_pct_i =>
              rw [hdiv] at hr
              simp only [] at hr
              by_cases hrej : h.stdev_pct - stdev_pct_i < df
              · rw [if_pos hrej] at hr
                cases hr
                exact ⟨rfl, fun hb => hb⟩
              · rw [if_neg hrej] at hr
                cases href : refine_loop sqrt nx rf [1, -1]
                    { h with uas := (h.bills.eraseIdx (outlier_idx h)).map Bill.ua,
                             avg_ua := avg_ua_i, stdev_pct := stdev_pct_i,
                             bills := h.bills.eraseIdx (outlier_idx h) } with
                | none => rw [href] at hr; cases hr
                | some h'' =>
                  rw [href] at hr
                  simp only [] at hr
                  obtain ⟨e1, l1⟩ := refine_loop_bp_le sqrt nx rf [1, -1] _ h'' href
                  obtain ⟨e2, l2⟩ := ih _ _ hr
                  refine ⟨by rw [e2, e1], fun hb => ?_⟩
                  exact l2 (l1 hb)
    · rw [if_neg hgt] at hr
      cases hr
      exact ⟨rfl, fun hb => hb⟩

/-- Destructor for a completed `calculate_balance_point_and_ua` call:
the initial statistics succeeded, the initial refine pass completed, and
the outlier loop completed from its result. -/
lemma calculate_cases {sqrt : ℚ → ℚ} {init mx df nx : ℚ} {rf lf : ℕ} {h h' : Home}
    (hr : calculate_balance_point_and_ua sqrt init mx df nx rf lf h = some h') :
    ∃ avg_ua psd stdev_pct h1,
      mean (h.bills.map Bill.ua) = some avg_ua ∧
      pstdev sqrt (h.bills.map Bill.ua) = some psd ∧
      safe_div psd avg_ua = some stdev_pct ∧
      refine_loop sqrt init rf [1, -1]
        { h with uas := h.bills.map Bill.ua, avg_ua := avg_ua, stdev_pct := stdev_pct } = some h1 ∧
      calc_loop sqrt mx df nx rf lf h1 = some h' := by
  unfold calculate_balance_point_and_ua at hr
  simp only [] at hr
  cases hmean : mean (h.bills.map Bill.ua) with
  | none => rw [hmean] at hr; cases hr
  | some avg_ua =>
    rw [hmean] at hr
    simp only [] at hr
    cases hpsd : pstdev sqrt (h.bills.map Bill.ua) with
    | none => rw [hpsd] at hr; cases hr
    | some psd =>
      rw [hpsd] at hr
      simp only [] at hr
      cases hdiv : safe_div psd avg_ua with
      | none => rw [hdiv] at hr; cases hr
      | some stdev_pct =>
        rw [hdiv] at hr
        simp only [] at hr
        cases href : refine_loop sqrt init rf [1, -1]
            { h with uas := h.bills.map Bill.ua, avg_ua := avg_ua, stdev_pct := stdev_pct } with
        | none => rw [href] at hr; cases hr
        | some h1 =>
          rw [href] at hr
          simp only [] at hr
          exact ⟨avg_ua, psd, stdev_pct, h1, by simp [hmean], by simp [hpsd],
            by simp [hdiv], href, hr⟩

/-- Destructor for a completed `calculate_balance_point_and_ua_customizable`
call. -/
lemma customizable_cases {sqrt : ℚ → ℚ} {bps_to_remove : List Bill} {s : ℚ} {rf : ℕ} {h h' : Home}
    (hr : calculate_balance_point_and_ua_customizable sqrt bps_to_remove s rf h = some h') :
    ∃ avg_ua psd stdev_pct,
      refine_loop sqrt s rf [1, -1]
        { h with uas := (h.bills.filter fun bp => !(bps_to_remove.contains bp)).map Bill.ua,
                 avg_ua := avg_ua, stdev_pct := stdev_pct,
                 bills := h.bills.filter fun bp => !(bps_to_remove.contains bp) } = some h' ∧
      mean ((h.bills.filter fun bp => !(bps_to_remove.contains bp)).map Bill.ua) = some avg_ua ∧
      pstdev sqrt ((h.bills.filter fun bp => !(bps_to_remove.contains bp)).map Bill.ua) = some psd ∧
      safe_div psd avg_ua = some stdev_pct := by
  unfold calculate_balance_point_and_ua_customizable at hr
  simp only [] at hr
  cases hmean : mean ((h.bills.filter fun bp => !(bps_to_remove.contains bp)).map Bill.ua) with
  | none => rw [hmean] at hr; cases hr
  | some avg_ua =>
    rw [hmean] at hr
    simp only [] at hr
    cases hpsd : pstdev sqrt ((h.bills.filter fun bp => !(bps_to_remove.contains bp)).map Bill.ua) with
    | none => rw [hpsd] at hr; cases hr
    | some psd =>
      rw [hpsd] at hr
      simp only [] at hr
      cases hdiv : safe_div psd avg_ua with
      | none => rw [hdiv] at hr; cases hr
      | some stdev_pct =>
        rw [hdiv] at hr
        simp only [] at hr
        exact ⟨avg_ua, psd, stdev_pct, hr, by simp [hmean], by simp [hpsd], by simp [hdiv]⟩

lemma idxmax_cons₂ (x y : ℚ) (t : List ℚ) :
    idxmax (x :: y :: t) =
      if x < (y :: t).getD (idxmax (y :: t)) 0 then idxmax (y :: t) + 1 else 0 := rfl

/-- `idxmax` is a first-occurrence argmax: the result is a valid index,
no element exceeds the element there, and every earlier element is
strictly smaller. -/
lemma idxmax_spec :
    ∀ (xs : List ℚ), xs ≠ [] →
      idxmax xs < xs.length ∧
      (∀ j, j < xs.length → xs.getD j 0 ≤ xs.getD (idxmax xs) 0) ∧
      (∀ j, j < idxmax xs → xs.getD j 0 < xs.getD (idxmax xs) 0) := by
  intro xs
  induction xs with
  | nil => intro hne; exact absurd rfl hne
  | cons x xs ih =>
    intro _
    cases xs with
    | nil =>
      refine ⟨by simp [idxmax], ?_, ?_⟩
      · intro j hj
        have hj0 : j = 0 := by simpa [Nat.lt_one_iff] using hj
        subst hj0
        exact le_refl _
      · intro j hj
        simp [idxmax] at hj
    | cons y t =>
      obtain ⟨ih1, ih2, ih3⟩ := ih (by simp)
      by_cases hx : x < (y :: t).getD (idxmax (y :: t)) 0
      · have hidx : idxmax (x :: y :: t) = idxmax (y :: t) + 1 := by
          rw [idxmax_cons₂, if_pos hx]
        refine ⟨?_, ?_, ?_⟩
        · rw [hidx]
          simpa using Nat.succ_lt_succ ih1
        · intro j hj
          rw [hidx, List.getD_cons_succ]
          cases j with
          | zero => exact le_of_lt (by simpa using hx)
          | succ j =>
            rw [List.getD_cons_succ]
            exact ih2 j (by simpa using Nat.lt_of_succ_lt_succ hj)
        · intro j hj
          rw [hidx, List.getD_cons_succ]
          cases j with
          | zero => simpa using hx
          | succ j =>
            rw [List.getD_cons_succ]
            rw [hidx] at hj
            exact ih3 j (Nat.lt_of_succ_lt_succ hj)
      · have hidx : idxmax (x :: y :: t) = 0 := by
          rw [idxmax_cons₂, if_neg hx]
        refine ⟨by rw [hidx]; simp, ?_, ?_⟩
        · intro j hj
          rw [hidx, List.getD_cons_zero]
          cases j with
          | zero => simp
          | succ j =>
            rw [List.getD_cons_succ]
            exact le_trans (ih2 j (by simpa using Nat.lt_of_succ_lt_succ hj)) (not_lt.mp hx)
        · intro j hj
          rw [hidx] at hj
          exact absurd hj (Nat.not_lt_zero j)

/-- Popping the element at a valid index and re-appending it at the end
is a permutation of the original list. -/
lemma eraseIdx_append_self_perm :
    ∀ (l : List Bill) (i : ℕ) (b : Bill), l.get? i = some b →
      (l.eraseIdx i ++ [b]).Perm l := by
  intro l
  induction l with
  | nil => intro i b h; simp at h
  | cons a l ih =>
    intro i b h
    cases i with
    | zero =>
      simp only [List.get?] at h
      cases h
      exact List.perm_append_singleton a l
    | succ i =>
      simp only [List.get?] at h
      simp [List.eraseIdx]
      exact ih i b h

/-- One-step equation for the rejection path of the outlier loop: when
the tentative exclusion does not improve `stdev_pct` by at least
`max_stdev_pct_diff`, the loop restores the popped bill at the end of the
retained list and stops with every other field unchanged. -/
lemma calc_loop_reject {sqrt : ℚ → ℚ} {mx df nx : ℚ} {rf fuel : ℕ} {h : Home}
    {outlier : Bill} {avg_ua_i psd stdev_pct_i : ℚ}
    (hgt : mx < h.stdev_pct)
    (hget : h.bills.get? (outlier_idx h) = some outlier)
    (hmean : mean ((h.bills.eraseIdx (outlier_idx h)).map Bill.ua) = some avg_ua_i)
    (hpsd : pstdev sqrt ((h.bills.eraseIdx (outlier_idx h)).map Bill.ua) = some psd)
    (hdiv : safe_div psd avg_ua_i = some stdev_pct_i)
    (hrej : h.stdev_pct - stdev_pct_i < df) :
    calc_loop sqrt mx df nx rf (fuel + 1) h =
      some { h with bills := h.bills.eraseIdx (outlier_idx h) ++ [outlier] } := by
  rw [calc_loop_succ, if_pos hgt, hget]
  simp only []
  rw [hmean]
  simp only []
  rw [hpsd]
  simp only []
  rw [hdiv]
  simp only []
  rw [if_pos hrej]

/-- One-step equation for an improving first trial of the direction loop
when both directions are still active: the commit happens and the untried
opposite direction is dropped, leaving only the tried direction. -/
lemma refine_loop_commit_both {sqrt : ℚ → ℚ} {s : ℚ} {fuel : ℕ} {d d' : ℚ} {h : Home}
    {t : TrialStats}
    (hbp : ¬ h.thermostat_set_point < h.balance_point + d * s)
    (ht : refine_trial sqrt h (h.balance_point + d * s) = some t)
    (himp : t.stdev_pct < h.stdev_pct) :
    refine_loop sqrt s (fuel + 1) [d, d'] h =
      refine_loop sqrt s fuel [d] (refine_commit h (h.balance_point + d * s) t) := by
  rw [refine_loop_cons, if_neg hbp, ht]
  simp only []
  rw [if_pos himp]
  rfl

/-! ## Claim theorems -/

/-- C1: Synchronization invariant.  Whenever `refine_balance_point`
commits a new balance point it writes the recomputed `total_hdd`/`ua`
(computed at the new balance point) into every retained bill in the same
step, so both `refine_balance_point` and `calculate_balance_point_and_ua`
preserve the invariant that every retained bill's `total_hdd` equals
`period_hdd avg_temps balance_point` and its `ua` equals
`partial_ua / total_hdd` at the home's current balance point — in
particular the invariant holds at every point where the aggregate
statistics (`avg_ua`, `stdev_pct`) are recomputed from the bills. -/
theorem refine_and_calculate_preserve_synced :
    (∀ (sqrt : ℚ → ℚ) (s : ℚ) (fuel : ℕ) (h h' : Home),
        bills_synced h → refine_balance_point sqrt s fuel h = some h' → bills_synced h') ∧
    (∀ (sqrt : ℚ → ℚ) (init mx df nx : ℚ) (rf lf : ℕ) (h h' : Home),
        bills_synced h →
        calculate_balance_point_and_ua sqrt init mx df nx rf lf h = some h' →
        bills_synced h') := by
  constructor
  · intro sqrt s fuel h h' hs hr
    exact refine_loop_synced sqrt s fuel [1, -1] h h' hs hr
  · intro sqrt init mx df nx rf lf h h' hs hr
    obtain ⟨avg_ua, psd, stdev_pct, h1, _, _, _, href, hloop⟩ := calculate_cases hr
    have hs1 : bills_synced
        { h with uas := h.bills.map Bill.ua, avg_ua := avg_ua, stdev_pct := stdev_pct } := hs
    exact calc_loop_synced sqrt mx df nx rf lf h1 h'
      (refine_loop_synced sqrt init rf [1, -1] _ h1 hs1 href) hloop

/-- C1 witness: a concrete synced home through a completed
`calculate_balance_point_and_ua` call. -/
theorem refine_and_calculate_preserve_synced_witness :
    bills_synced home_stable ∧
    calculate_balance_point_and_ua ratSqrt 2 (1 / 10) (1 / 100) (1 / 2) 1 1 home_stable =
      some home_stable ∧
    bills_synced home_stable :=
  ⟨by simp only [bills_synced, bill_synced]; decide, by decide,
   refine_and_calculate_preserve_synced.2 ratSqrt 2 (1 / 10) (1 / 100) (1 / 2) 1 1
     home_stable home_stable (by simp only [bills_synced, bill_synced]; decide) (by decide)⟩

/-- C3: Monotonicity of the local search.  A trial is committed only when
its `stdev_pct` is strictly smaller than the current one, so along any
completed run of the direction loop (from any direction set, i.e. from
any intermediate state of the call) the final `stdev_pct` is at most the
entry `stdev_pct`; in particular this holds for a whole
`refine_balance_point` call. -/
theorem refine_stdev_nonincreasing :
    (∀ (sqrt : ℚ → ℚ) (s : ℚ) (fuel : ℕ) (dirs : List ℚ) (h h' : Home),
        refine_loop sqrt s fuel dirs h = some h' → h'.stdev_pct ≤ h.stdev_pct) ∧
    (∀ (sqrt : ℚ → ℚ) (s : ℚ) (fuel : ℕ) (h h' : Home),
        refine_balance_point sqrt s fuel h = some h' → h'.stdev_pct ≤ h.stdev_pct) ∧
    (∀ (sqrt : ℚ → ℚ) (s : ℚ) (fuel : ℕ) (d : ℚ) (ds : List ℚ) (h : Home) (t : TrialStats),
        ¬ h.thermostat_set_point < h.balance_point + d * s →
        refine_trial sqrt h (h.balance_point + d * s) = some t →
        ¬ t.stdev_pct < h.stdev_pct →
        refine_loop sqrt s (fuel + 1) (d :: ds) h = refine_loop sqrt s fuel ds h) := by
  refine ⟨?_, ?_, ?_⟩
  · intro sqrt s fuel dirs h h' hr
    exact refine_loop_stdev_le sqrt s fuel dirs h h' hr
  · intro sqrt s fuel h h' hr
    exact refine_loop_stdev_le sqrt s fuel [1, -1] h h' hr
  · intro sqrt s fuel d ds h t hbp ht himp
    rw [refine_loop_cons, if_neg hbp, ht]
    simp only []
    rw [if_neg himp]

/-- C3 witness: a concrete ten-commit refine run whose `stdev_pct` drops
from `1/7` to `1/9`. -/
theorem refine_stdev_nonincreasing_witness :
    refine_balance_point ratSqrt 1 12 home_improving = some home_improving_result ∧
    home_improving_result.stdev_pct ≤ home_improving.stdev_pct :=
  ⟨by decide,
   refine_stdev_nonincreasing.2.1 ratSqrt 1 12 home_improving home_improving_result
     (by decide)⟩

/-- C4 counterexample: `Home.__init__` accepts an initial balance point
above the thermostat set point, and on such a home `refine_balance_point`
returns with the balance point still above the set point (the very first
trial is infeasible, so the loop stops without any commit), refuting
"`balance_point` never exceeds `thermostat_set_point` after any call" as
a property of every `Home`. -/
theorem balance_point_bound_cex :
    refine_balance_point ratSqrt 2 5 home_above = some home_above ∧
    home_above.thermostat_set_point < home_above.balance_point := by
  constructor
  · decide
  · decide

/-- C4 amended: if the balance point is at or below the thermostat set
point on entry, then after any completed `refine_balance_point`,
`calculate_balance_point_and_ua`, or
`calculate_balance_point_and_ua_customizable` call it still is (a trial
exceeding the set point stops the search before any commit, and no other
step moves the balance point). -/
theorem balance_point_bound_preserved :
    (∀ (sqrt : ℚ → ℚ) (s : ℚ) (fuel : ℕ) (h h' : Home),
        h.balance_point ≤ h.thermostat_set_point →
        refine_balance_point sqrt s fuel h = some h' →
        h'.balance_point ≤ h'.thermostat_set_point) ∧
    (∀ (sqrt : ℚ → ℚ) (init mx df nx : ℚ) (rf lf : ℕ) (h h' : Home),
        h.balance_point ≤ h.thermostat_set_point →
        calculate_balance_point_and_ua sqrt init mx df nx rf lf h = some h' →
        h'.balance_point ≤ h'.thermostat_set_point) ∧
    (∀ (sqrt : ℚ → ℚ) (bps_to_remove : List Bill) (s : ℚ) (rf : ℕ) (h h' : Home),
        h.balance_point ≤ h.thermostat_set_point →
        calculate_balance_point_and_ua_customizable sqrt bps_to_remove s rf h = some h' →
        h'.balance_point ≤ h'.thermostat_set_point) := by
  refine ⟨?_, ?_, ?_⟩
  · intro sqrt s fuel h h' hb hr
    exact (refine_loop_bp_le sqrt s fuel [1, -1] h h' hr).2 hb
  · intro sqrt init mx df nx rf lf h h' hb hr
    obtain ⟨avg_ua, psd, stdev_pct, h1, _, _, _, href, hloop⟩ := calculate_cases hr
    have h2 := refine_loop_bp_le sqrt init rf [1, -1] _ h1 href
    exact (calc_loop_bp_le sqrt mx df nx rf lf h1 h' hloop).2 (h2.2 hb)
  · intro sqrt bps s rf h h' hb hr
    obtain ⟨avg_ua, psd, stdev_pct, href, _, _, _⟩ := customizable_cases hr
    exact (refine_loop_bp_le sqrt s rf [1, -1] _ h' href).2 hb

/-- C4 amended witness. -/
theorem balance_point_bound_preserved_witness :
    home_stable.balance_point ≤ home_stable.thermostat_set_point ∧
    home_stable.balance_point ≤ home_stable.thermostat_set_point :=
  ⟨by decide,
   balance_point_bound_preserved.1 ratSqrt 2 1 home_stable home_stable
     (by decide) (by decide)⟩

/-- C5: Outlier selection.  The index popped by the outlier loop,
`outlier_idx`, is a valid index of the retained list that maximizes
`|ua - avg_ua|`, and every strictly earlier index has a strictly smaller
value (first-occurrence argmax, `np.argmax` semantics). -/
theorem outlier_selection_first_occurrence (h : Home) (hne : h.bills ≠ []) :
    outlier_idx h < h.bills.length ∧
    (∀ j, j < h.bills.length →
      (h.bills.map fun bill => |bill.ua - h.avg_ua|).getD j 0 ≤
        (h.bills.map fun bill => |bill.ua - h.avg_ua|).getD (outlier_idx h) 0) ∧
    (∀ j, j < outlier_idx h →
      (h.bills.map fun bill => |bill.ua - h.avg_ua|).getD j 0 <
        (h.bills.map fun bill => |bill.ua - h.avg_ua|).getD (outlier_idx h) 0) := by
  have hne' : (h.bills.map fun bill => |bill.ua - h.avg_ua|) ≠ [] := by
    simpa using hne
  obtain ⟨h1, h2, h3⟩ := idxmax_spec _ hne'
  refine ⟨by simpa [outlier_idx] using h1, ?_, h3⟩
  intro j hj
  exact h2 j (by simpa using hj)

/-- C5 witness. -/
theorem outlier_selection_first_occurrence_witness :
    home_reject.bills ≠ [] ∧ outlier_idx home_reject < home_reject.bills.length :=
  ⟨by decide, (outlier_selection_first_occurrence home_reject (by decide)).1⟩

/-- C6: Rejected-exclusion stop rule.  When the tentative exclusion
reduces `stdev_pct` by less than `max_stdev_pct_diff`, the loop returns
immediately (the conclusion is the loop's value at this very iteration,
with no recursive call and no further refine), and `balance_point`,
`avg_ua`, `stdev_pct`, `uas` and the retained-set membership are exactly
what they were before the tentative exclusion. -/
theorem reject_exclusion_stops_and_preserves
    (sqrt : ℚ → ℚ) (mx df nx : ℚ) (rf fuel : ℕ) (h : Home)
    (outlier : Bill) (avg_ua_i psd stdev_pct_i : ℚ)
    (hgt : mx < h.stdev_pct)
    (hget : h.bills.get? (outlier_idx h) = some outlier)
    (hmean : mean ((h.bills.eraseIdx (outlier_idx h)).map Bill.ua) = some avg_ua_i)
    (hpsd : pstdev sqrt ((h.bills.eraseIdx (outlier_idx h)).map Bill.ua) = some psd)
    (hdiv : safe_div psd avg_ua_i = some stdev_pct_i)
    (hrej : h.stdev_pct - stdev_pct_i < df) :
    ∃ h'', calc_loop sqrt mx df nx rf (fuel + 1) h = some h'' ∧
      h''.balance_point = h.balance_point ∧ h''.avg_ua = h.avg_ua ∧
      h''.stdev_pct = h.stdev_pct ∧ h''.uas = h.uas ∧ h''.bills.Perm h.bills := by
  refine ⟨_, calc_loop_reject hgt hget hmean hpsd hdiv hrej, rfl, rfl, rfl, rfl, ?_⟩
  exact eraseIdx_append_self_perm h.bills (outlier_idx h) outlier hget

/-- C6 witness. -/
theorem reject_exclusion_stops_and_preserves_witness :
    (1 / 10 : ℚ) < home_reject.stdev_pct ∧
    home_reject.stdev_pct - 0 < 1 / 2 ∧
    (∃ h'', calc_loop ratSqrt (1 / 10) (1 / 2) (1 / 2) 1 1 home_reject = some h'' ∧
      h''.balance_point = home_reject.balance_point ∧ h''.avg_ua = home_reject.avg_ua ∧
      h''.stdev_pct = home_reject.stdev_pct ∧ h''.uas = home_reject.uas ∧
      h''.bills.Perm home_reject.bills) :=
  ⟨by decide, by decide,
   reject_exclusion_stops_and_preserves ratSqrt (1 / 10) (1 / 2) (1 / 2) 1 0 home_reject
     bill_t20 2 0 0 (by decide) (by decide) (by decide) (by decide) (by decide) (by decide)⟩

/-- C10: On the rejection path the popped bill is restored by appending
it to the end of the retained list (`bills.eraseIdx i ++ [outlier]`), not
re-inserted at its original index, so membership is preserved (a
permutation) but the order may differ from the order before the tentative
exclusion. -/
theorem reject_restores_by_appending
    (sqrt : ℚ → ℚ) (mx df nx : ℚ) (rf fuel : ℕ) (h : Home)
    (outlier : Bill) (avg_ua_i psd stdev_pct_i : ℚ)
    (hgt : mx < h.stdev_pct)
    (hget : h.bills.get? (outlier_idx h) = some outlier)
    (hmean : mean ((h.bills.eraseIdx (outlier_idx h)).map Bill.ua) = some avg_ua_i)
    (hpsd : pstdev sqrt ((h.bills.eraseIdx (outlier_idx h)).map Bill.ua) = some psd)
    (hdiv : safe_div psd avg_ua_i = some stdev_pct_i)
    (hrej : h.stdev_pct - stdev_pct_i < df) :
    calc_loop sqrt mx df nx rf (fuel + 1) h =
      some { h with bills := h.bills.eraseIdx (outlier_idx h) ++ [outlier] } ∧
    (h.bills.eraseIdx (outlier_idx h) ++ [outlier]).Perm h.bills :=
  ⟨calc_loop_reject hgt hget hmean hpsd hdiv hrej,
   eraseIdx_append_self_perm h.bills (outlier_idx h) outlier hget⟩

/-- C10 witness: on `home_reject` the restored list `[bill_u2, bill_t20]`
differs from the original order `[bill_t20, bill_u2]`. -/
theorem reject_restores_by_appending_witness :
    (calc_loop ratSqrt (1 / 10) (1 / 2) (1 / 2) 1 1 home_reject =
      some { home_reject with
             bills := home_reject.bills.eraseIdx (outlier_idx home_reject) ++ [bill_t20] } ∧
     (home_reject.bills.eraseIdx (outlier_idx home_reject) ++ [bill_t20]).Perm
       home_reject.bills) ∧
    home_reject.bills.eraseIdx (outlier_idx home_reject) ++ [bill_t20] ≠ home_reject.bills :=
  ⟨reject_restores_by_appending ratSqrt (1 / 10) (1 / 2) (1 / 2) 1 0 home_reject
     bill_t20 2 0 0 (by decide) (by decide) (by decide) (by decide) (by decide) (by decide),
   by decide⟩

/-- C8: Zero-degree-day failure.  Constructing a `BillingPeriod` whose
`period_hdd` at the home's balance point is `0` fails with an explicit
error (the `ua = partial_ua / total_hdd` division raises, modelled as
`none`), and for every period with positive `period_hdd` construction
succeeds with `total_hdd = period_hdd avg_temps balance_point` and
`ua = partial_ua / total_hdd`. -/
theorem zero_degree_day_period (home : Home) (avg_temps : List ℚ) (usage : ℚ) :
    (period_hdd avg_temps home.balance_point = 0 →
      mk_billing_period home avg_temps usage = none) ∧
    (0 < period_hdd avg_temps home.balance_point →
      ∃ b, mk_billing_period home avg_temps usage = some b ∧
        b.total_hdd = period_hdd avg_temps home.balance_point ∧
        b.ua = b.partial_ua / b.total_hdd) := by
  constructor
  · intro h0
    unfold mk_billing_period
    simp only []
    cases avg_temps with
    | nil => simp [safe_div]
    | cons a l =>
      have hd : (((a :: l).length : ℕ) : ℚ) ≠ 0 := by
        have hpos : (0 : ℚ) < (((a :: l).length : ℕ) : ℚ) := by
          exact_mod_cast Nat.succ_pos l.length
        exact ne_of_gt hpos
      rw [safe_div, if_neg hd]
      simp only []
      rw [safe_div, if_pos h0]
  · intro hpos
    have hne : avg_temps ≠ [] := by
      intro he
      rw [he] at hpos
      simp [period_hdd] at hpos
    have hd : ((avg_temps.length : ℕ) : ℚ) ≠ 0 := by
      simpa using fun hlen => hne (List.length_eq_zero.mp hlen)
    unfold mk_billing_period
    simp only []
    rw [safe_div, if_neg hd]
    simp only []
    rw [safe_div, if_neg (ne_of_gt hpos)]
    simp only []
    exact ⟨_, rfl, rfl, rfl⟩

/-- C8 witness: at balance point 60, a period of one 70 °F day has zero
degree days and fails; a period of one 20 °F day succeeds. -/
theorem zero_degree_day_period_witness :
    period_hdd [70] home_stable.balance_point = 0 ∧
    mk_billing_period home_stable [70] 40 = none ∧
    0 < period_hdd [20] home_stable.balance_point ∧
    mk_billing_period home_stable [20] 40 ≠ none :=
  ⟨by decide, (zero_degree_day_period home_stable [70] 40).1 (by decide), by decide, by
    obtain ⟨b, hb, -, -⟩ := (zero_degree_day_period home_stable [20] 40).2 (by decide)
    simp [hb]⟩

/-- C9: The outlier loop of `calculate_balance_point_and_ua` can commit
an exclusion that leaves exactly one retained period and terminate
normally: on this two-period home the tentative exclusion of the first
period leaves a singleton whose population standard deviation is `0`, so
`stdev_pct` becomes `0`, the improvement (`4/5`) passes the
`max_stdev_pct_diff` test, the while-condition then fails, and the run
returns `some` with a single retained period — no guard ever checks that
the retained count stays at least 2. -/
theorem outlier_loop_reaches_single_period :
    (initialize_billing_periods (mk_home .GAS (3 / 12500) 60 60) [[20], [20]] [8, 72] 0).map
      (fun S => S.bills.length) = some 2 ∧
    ((initialize_billing_periods (mk_home .GAS (3 / 12500) 60 60) [[20], [20]] [8, 72] 0).bind
        (calculate_balance_point_and_ua ratSqrt 2 (1 / 10) (1 / 100) (1 / 2) 3 3)).map
      (fun S => (S.bills.length, S.stdev_pct, S.avg_ua)) = some (1, 0, 9 / 5) :=
  ⟨by decide, by decide⟩

/-- C7 counterexample: `run_once` is a completed
`calculate_balance_point_and_ua` call (its first tentative exclusion is
rejected, so all three periods stay retained), yet re-invoking the method
with the same parameters on that completed state excludes two periods and
ends with a single retained period — the retained billing-period set is
not left unchanged, refuting idempotence on stable input. -/
theorem calculate_not_idempotent_cex :
    run_once.map (fun S => S.bills.length) = some 3 ∧
    run_twice.map (fun S => S.bills.length) = some 1 :=
  ⟨by decide, by decide⟩

/-- C7 amended: re-invocation is a no-op (apart from refreshing the
stale `uas` field) on a completed state that is additionally a fixed
point of the initial refine pass and whose stored statistics match the
recomputed ones with `stdev_pct` within `stdev_pct_max`.  (The
counterexample shows the extra fixed-point condition is necessary: a
completed run whose last refine used the smaller sensitivity need not be
stable under a fresh refine at the initial sensitivity.) -/
theorem calculate_idempotent_on_refine_stable_input
    (sqrt : ℚ → ℚ) (init mx df nx : ℚ) (rf lf : ℕ) (S : Home) (psd : ℚ)
    (hmean : mean (S.bills.map Bill.ua) = some S.avg_ua)
    (hpsd : pstdev sqrt (S.bills.map Bill.ua) = some psd)
    (hdiv : safe_div psd S.avg_ua = some S.stdev_pct)
    (hrefine : refine_loop sqrt init rf [1, -1] { S with uas := S.bills.map Bill.ua } =
      some { S with uas := S.bills.map Bill.ua })
    (hle : ¬ mx < S.stdev_pct) :
    calculate_balance_point_and_ua sqrt init mx df nx rf (lf + 1) S =
      some { S with uas := S.bills.map Bill.ua } := by
  unfold calculate_balance_point_and_ua
  simp only []
  rw [hmean]
  simp only []
  rw [hpsd]
  simp only []
  rw [hdiv]
  simp only []
  have he : { S with
      uas := S.bills.map Bill.ua
      avg_ua := S.avg_ua
      stdev_pct := S.stdev_pct } = { S with uas := S.bills.map Bill.ua } := rfl
  rw [he, hrefine]
  simp only []
  rw [calc_loop_succ, if_neg hle]

/-- C7 amended witness. -/
theorem calculate_idempotent_on_refine_stable_input_witness :
    calculate_balance_point_and_ua ratSqrt 2 (1 / 10) (1 / 100) (1 / 2) 1 1 home_stable =
      some { home_stable with uas := home_stable.bills.map Bill.ua } :=
  calculate_idempotent_on_refine_stable_input ratSqrt 2 (1 / 10) (1 / 100) (1 / 2) 1 0
    home_stable 0 (by decide) (by decide) (by decide) (by decide) (by decide)

/-- C2: Asymmetric greedy search.  With both directions still active the
direction list is `[1, -1]` and the tried direction is `+1`; when that
trial strictly improves `stdev_pct`, the loop commits it and drops the
untried opposite direction `-1` without ever testing it: the rest of the
call is exactly the loop restricted to the single direction list `[1]`,
stepping again from the committed state in the same direction. -/
theorem refine_drops_opposite_direction
    (sqrt : ℚ → ℚ) (s : ℚ) (fuel : ℕ) (h : Home) (t : TrialStats)
    (hbp : ¬ h.thermostat_set_point < h.balance_point + 1 * s)
    (ht : refine_trial sqrt h (h.balance_point + 1 * s) = some t)
    (himp : t.stdev_pct < h.stdev_pct) :
    refine_loop sqrt s (fuel + 1) [1, -1] h =
      refine_loop sqrt s fuel [1] (refine_commit h (h.balance_point + 1 * s) t) ∧
    (refine_commit h (h.balance_point + 1 * s) t).balance_point = h.balance_point + 1 * s :=
  ⟨refine_loop_commit_both hbp ht himp, rfl⟩

/-- C2 witness: on `home_improving` the `+1` trial at sensitivity 1
improves (`5/36 < 1/7`), so the first loop iteration reduces to the
single-direction loop from the committed state. -/
theorem refine_drops_opposite_direction_witness :
    refine_trial ratSqrt home_improving (home_improving.balance_point + 1 * 1) =
      some trial_61 ∧
    (refine_loop ratSqrt 1 12 [1, -1] home_improving =
       refine_loop ratSqrt 1 11 [1]
         (refine_commit home_improving (home_improving.balance_point + 1 * 1) trial_61) ∧
     (refine_commit home_improving (home_improving.balance_point + 1 * 1)
         trial_61).balance_point = home_improving.balance_point + 1 * 1) :=
  ⟨by decide,
   refine_drops_opposite_direction ratSqrt 1 11 home_improving trial_61
     (by decide) (by decide) (by decide)⟩
